import Mathlib

/-!
Verification of the Kalshi market-maker core: a shallow embedding of
`src/fees.py` and `src/orderbook.py` in Lean 4, with theorems settling the
spec's claims about them.

Modelling conventions:
* Python `int` is `ℤ`; Python `float` arithmetic is modelled by exact
  rational arithmetic (`ℚ`) — the float expressions in the source are
  plain field formulas whose claims are about their exact mathematical
  content, not IEEE rounding.
* Python `//` (floor division) on a non-negative right operand equals
  Lean's `Int.fdiv`.
* Python functions that can raise are embedded with `Except`; `None`
  becomes `Option.none`.
* The human-readable `reason` string of `should_quote_market` is pure
  string formatting with no decision content and is not modelled.
-/

namespace KalshiMM

/-! ## Embedding of `src/fees.py` -/

/-- `FeeCalculation` dataclass of `fees.py`. -/
structure FeeCalculation where
  contracts : ℤ
  price_cents : ℤ
  price_decimal : ℚ
  risk_per_contract : ℚ
  total_risk : ℚ
  fee_dollars : ℚ
  fee_cents : ℚ
  fee_rate : ℚ
  deriving Repr, DecidableEq

/-- `ProfitabilityAnalysis` dataclass of `fees.py`. -/
structure ProfitabilityAnalysis where
  contracts : ℤ
  entry_price_cents : ℤ
  exit_price_cents : ℤ
  spread_cents : ℤ
  gross_profit_cents : ℚ
  gross_profit_dollars : ℚ
  entry_fee : FeeCalculation
  exit_fee : FeeCalculation
  total_fees_cents : ℚ
  total_fees_dollars : ℚ
  net_profit_cents : ℚ
  net_profit_dollars : ℚ
  is_profitable : Bool
  profit_per_contract_cents : ℚ
  roi_percent : ℚ
  deriving Repr, DecidableEq

/-- `MAKER_FEE_RATE = 0.0175` of `fees.py`. -/
def MAKER_FEE_RATE : ℚ := 0.0175

/-- `TAKER_FEE_RATE = 0.07` of `fees.py`. -/
def TAKER_FEE_RATE : ℚ := 0.07

/-- `calculate_fee` of `fees.py`. -/
def calculate_fee (contracts : ℤ) (price_cents : ℤ) (fee_rate : ℚ) :
    FeeCalculation :=
  let price_decimal : ℚ := (price_cents : ℚ) / 100
  let risk_per_contract : ℚ := min price_decimal (1 - price_decimal)
  let total_risk : ℚ := (contracts : ℚ) * risk_per_contract
  let fee_dollars : ℚ := fee_rate * (contracts : ℚ) * price_decimal * (1 - price_decimal)
  let fee_cents : ℚ := fee_dollars * 100
  { contracts := contracts
    price_cents := price_cents
    price_decimal := price_decimal
    risk_per_contract := risk_per_contract
    total_risk := total_risk
    fee_dollars := fee_dollars
    fee_cents := fee_cents
    fee_rate := fee_rate }

/-- `calculate_maker_fee` of `fees.py`. -/
def calculate_maker_fee (contracts : ℤ) (price_cents : ℤ) : FeeCalculation :=
  calculate_fee contracts price_cents MAKER_FEE_RATE

/-- `calculate_taker_fee` of `fees.py`. -/
def calculate_taker_fee (contracts : ℤ) (price_cents : ℤ) : FeeCalculation :=
  calculate_fee contracts price_cents TAKER_FEE_RATE

/-- `calculate_round_trip_fee` of `fees.py`. -/
def calculate_round_trip_fee (contracts : ℤ) (entry_price_cents : ℤ)
    (exit_price_cents : ℤ) (as_maker : Bool) : ℚ :=
  let fee_rate := if as_maker then MAKER_FEE_RATE else TAKER_FEE_RATE
  let entry_fee := calculate_fee contracts entry_price_cents fee_rate
  let exit_fee := calculate_fee contracts exit_price_cents fee_rate
  entry_fee.fee_cents + exit_fee.fee_cents

/-- `analyze_profitability` of `fees.py`. -/
def analyze_profitability (contracts : ℤ) (entry_price_cents : ℤ)
    (exit_price_cents : ℤ) (as_maker : Bool) : ProfitabilityAnalysis :=
  let fee_rate := if as_maker then MAKER_FEE_RATE else TAKER_FEE_RATE
  let spread_cents := exit_price_cents - entry_price_cents
  let gross_profit_cents : ℚ := ((spread_cents * contracts : ℤ) : ℚ)
  let gross_profit_dollars := gross_profit_cents / 100
  let entry_fee := calculate_fee contracts entry_price_cents fee_rate
  let exit_fee := calculate_fee contracts exit_price_cents fee_rate
  let total_fees_cents := entry_fee.fee_cents + exit_fee.fee_cents
  let total_fees_dollars := total_fees_cents / 100
  let net_profit_cents := gross_profit_cents - total_fees_cents
  let net_profit_dollars := net_profit_cents / 100
  let is_profitable := decide (0 < net_profit_cents)
  let profit_per_contract_cents :=
    if 0 < contracts then net_profit_cents / (contracts : ℚ) else 0
  let capital_at_risk : ℚ := ((entry_price_cents : ℚ) * (contracts : ℚ)) / 100
  let roi_percent :=
    if 0 < capital_at_risk then net_profit_dollars / capital_at_risk * 100 else 0
  { contracts := contracts
    entry_price_cents := entry_price_cents
    exit_price_cents := exit_price_cents
    spread_cents := spread_cents
    gross_profit_cents := gross_profit_cents
    gross_profit_dollars := gross_profit_dollars
    entry_fee := entry_fee
    exit_fee := exit_fee
    total_fees_cents := total_fees_cents
    total_fees_dollars := total_fees_dollars
    net_profit_cents := net_profit_cents
    net_profit_dollars := net_profit_dollars
    is_profitable := is_profitable
    profit_per_contract_cents := profit_per_contract_cents
    roi_percent := roi_percent }

/-! ### Spread search and quoting decision (`fees.py`, lines 240-417) -/

/-- `bid = mid_price_cents - spread // 2` inside the search loops of
`min_spread_for_breakeven` / `min_spread_for_profit`. The candidate spread is
a loop index from `range(1, 50)`, hence a natural number, and Python floor
division on it is `Nat` division. -/
def search_bid (mid : ℤ) (s : ℕ) : ℤ := mid - ((s / 2 : ℕ) : ℤ)

/-- `ask = mid_price_cents + spread // 2` inside the search loops. -/
def search_ask (mid : ℤ) (s : ℕ) : ℤ := mid + ((s / 2 : ℕ) : ℤ)

/-- The `if bid < 1 or ask > 99: continue` guard of the search loops:
`true` when the candidate is kept, `false` when it is skipped. -/
def search_valid (mid : ℤ) (s : ℕ) : Bool :=
  !(decide (search_bid mid s < 1) || decide (99 < search_ask mid s))

/-- Loop body condition of `min_spread_for_breakeven`: the candidate is not
skipped and `analyze_profitability(...).is_profitable` holds. -/
def breakeven_hit (contracts mid : ℤ) (as_maker : Bool) (s : ℕ) : Bool :=
  search_valid mid s &&
    (analyze_profitability contracts (search_bid mid s) (search_ask mid s) as_maker).is_profitable

/-- `min_spread_for_breakeven` of `fees.py`: first spread in `range(1, 50)`
whose candidate quotes are valid and profitable, else the fallback 50. -/
def min_spread_for_breakeven (contracts mid_price_cents : ℤ) (as_maker : Bool) : ℕ :=
  ((List.range' 1 49).find? (breakeven_hit contracts mid_price_cents as_maker)).getD 50

/-- Loop body condition of `min_spread_for_profit`: the candidate is not
skipped and `analysis.net_profit_cents >= target_profit_cents`. -/
def profit_hit (contracts mid : ℤ) (target : ℚ) (as_maker : Bool) (s : ℕ) : Bool :=
  search_valid mid s &&
    decide (target ≤
      (analyze_profitability contracts (search_bid mid s) (search_ask mid s) as_maker).net_profit_cents)

/-- `min_spread_for_profit` of `fees.py`. -/
def min_spread_for_profit (contracts mid_price_cents : ℤ) (target_profit_cents : ℚ)
    (as_maker : Bool) : ℕ :=
  ((List.range' 1 49).find?
    (profit_hit contracts mid_price_cents target_profit_cents as_maker)).getD 50

/-- `bid = max(1, mid_price_cents - spread_cents // 2)` of
`expected_profit_per_round_trip` / `should_quote_market`. `spread_cents` is an
arbitrary `int` here, so `//` is `Int.fdiv`. -/
def clamped_bid (mid spread_cents : ℤ) : ℤ := max 1 (mid - Int.fdiv spread_cents 2)

/-- `ask = min(99, mid_price_cents + spread_cents // 2)` of
`expected_profit_per_round_trip` / `should_quote_market`. -/
def clamped_ask (mid spread_cents : ℤ) : ℤ := min 99 (mid + Int.fdiv spread_cents 2)

/-- `expected_profit_per_round_trip` of `fees.py`. -/
def expected_profit_per_round_trip (spread_cents contracts mid_price_cents : ℤ)
    (as_maker : Bool) : ℚ :=
  (analyze_profitability contracts (clamped_bid mid_price_cents spread_cents)
    (clamped_ask mid_price_cents spread_cents) as_maker).net_profit_cents

/-- The dict returned by `should_quote_market`, as a record. The
`reason` entry — a formatted string with no decision content — is not
modelled. -/
structure QuoteDecision where
  should_quote : Bool
  analysis : ProfitabilityAnalysis
  recommended_bid : ℤ
  recommended_ask : ℤ
  min_profitable_spread : ℕ
  breakeven_spread : ℕ
  deriving Repr, DecidableEq

/-- `should_quote_market` of `fees.py`. -/
def should_quote_market (spread_cents contracts mid_price_cents : ℤ)
    (min_profit_cents : ℚ) (as_maker : Bool) : QuoteDecision :=
  let bid := clamped_bid mid_price_cents spread_cents
  let ask := clamped_ask mid_price_cents spread_cents
  let analysis := analyze_profitability contracts bid ask as_maker
  let should_quote := decide (min_profit_cents ≤ analysis.net_profit_cents)
  { should_quote := should_quote
    analysis := analysis
    recommended_bid := bid
    recommended_ask := ask
    min_profitable_spread :=
      min_spread_for_profit contracts mid_price_cents min_profit_cents as_maker
    breakeven_spread := min_spread_for_breakeven contracts mid_price_cents as_maker }

/-! ## Embedding of `src/orderbook.py` -/

/-- `Quote` dataclass of `orderbook.py`: one price level. -/
structure Quote where
  price : ℤ
  quantity : ℤ
  deriving Repr, DecidableEq

/-- The raw Kalshi order book dict `{"yes": [[price, qty], ...], "no": ...}`.
A missing key defaults to `[]` in the source (`raw_orderbook.get(..., [])`),
so the two fields are total here. -/
structure RawOrderBook where
  yes : List (List ℤ)
  no : List (List ℤ)
  deriving Repr, DecidableEq

/-- `_parse_bids` of `orderbook.py`: keep the pairs with at least two
entries (shorter ones are dropped silently) and read entries 0 and 1. -/
def parse_bids : List (List ℤ) → List Quote
  | [] => []
  | (p :: q :: _) :: rest => ⟨p, q⟩ :: parse_bids rest
  | _ :: rest => parse_bids rest

/-- The comparator of Python `sorted(..., key=lambda q: q.price)`. -/
def priceLE (a b : Quote) : Bool := decide (a.price ≤ b.price)

/-- The comparator of Python `sorted(..., key=lambda q: q.price, reverse=True)`:
reversed comparisons, stability preserved. -/
def priceGE (a b : Quote) : Bool := decide (b.price ≤ a.price)

/-- `_convert_no_bids_to_yes_asks` of `orderbook.py`: a NO bid at `X` becomes
a YES ask at `100 - X` with the same quantity; the result is stably sorted by
price ascending (Python `sorted` is a stable sort, as is `List.mergeSort`). -/
def convert_no_bids_to_yes_asks (no_bids : List Quote) : List Quote :=
  (no_bids.map (fun bid => ⟨100 - bid.price, bid.quantity⟩)).mergeSort priceLE

/-- `max(bid.price for bid in yes_bids)` guarded by `if yes_bids`. -/
def max_price : List Quote → Option ℤ
  | [] => none
  | q :: rest =>
    some (match max_price rest with
      | none => q.price
      | some m => max q.price m)

/-- `min(ask.price for ask in yes_asks)` guarded by `if yes_asks`. -/
def min_price : List Quote → Option ℤ
  | [] => none
  | q :: rest =>
    some (match min_price rest with
      | none => q.price
      | some m => min q.price m)

/-- `sum(q.quantity for q in levels)`. -/
def total_quantity (l : List Quote) : ℤ := (l.map Quote.quantity).sum

/-- The `OrderBook` object after `__init__` ran `_parse_bids`,
`_convert_no_bids_to_yes_asks` and `_calculate_metrics`. The optional
metrics are `Option`, mirroring Python's `None`. -/
structure OrderBook where
  ticker : String
  yes_bids : List Quote
  no_bids : List Quote
  yes_asks : List Quote
  best_bid : Option ℤ
  best_ask : Option ℤ
  mid_price : Option ℚ
  spread : Option ℤ
  bid_depth : ℤ
  ask_depth : ℤ
  deriving Repr, DecidableEq

/-- `OrderBook.__init__` of `orderbook.py`, including `_calculate_metrics`. -/
def OrderBook.ofRaw (ticker : String) (raw : RawOrderBook) : OrderBook :=
  let yes_bids := parse_bids raw.yes
  let no_bids := parse_bids raw.no
  let yes_asks := convert_no_bids_to_yes_asks no_bids
  let best_bid := max_price yes_bids
  let best_ask := min_price yes_asks
  let mid_price : Option ℚ :=
    match best_bid, best_ask with
    | some b, some a => some (((b : ℚ) + (a : ℚ)) / 2)
    | _, _ => none
  let spread : Option ℤ :=
    match best_bid, best_ask with
    | some b, some a => some (a - b)
    | _, _ => none
  { ticker := ticker
    yes_bids := yes_bids
    no_bids := no_bids
    yes_asks := yes_asks
    best_bid := best_bid
    best_ask := best_ask
    mid_price := mid_price
    spread := spread
    bid_depth := total_quantity yes_bids
    ask_depth := total_quantity yes_asks }

/-- The side selection `yes_bids if side == "bid" else yes_asks` shared by
`get_vwap` and the depth queries. -/
def side_levels (ob : OrderBook) (side : String) : List Quote :=
  if side = "bid" then ob.yes_bids else ob.yes_asks

/-- Best-execution order of `get_vwap`: bids sorted by price descending,
anything else ascending. -/
def sort_best_first (side : String) (levels : List Quote) : List Quote :=
  if side = "bid" then levels.mergeSort priceGE else levels.mergeSort priceLE

/-- The accumulation loop of `get_vwap`: walk the levels keeping the running
`(total_value, total_quantity)`, taking `min(level.quantity, quantity - total_quantity)`
from each level and stopping once `total_quantity >= quantity`. -/
def vwap_loop (quantity : ℤ) : List Quote → ℤ → ℤ → ℤ × ℤ
  | [], tv, tq => (tv, tq)
  | level :: rest, tv, tq =>
    if quantity ≤ tq then (tv, tq)
    else
      let take := min level.quantity (quantity - tq)
      vwap_loop quantity rest (tv + level.price * take) (tq + take)

/-- `get_vwap` of `orderbook.py`. `Except.error ()` marks the
`ZeroDivisionError` Python raises from `total_value / total_quantity` when the
final `total_quantity` is zero — reachable, e.g. requesting zero contracts
against a non-empty side; `Except.ok none` is Python's `None`. -/
def get_vwap (ob : OrderBook) (side : String) (quantity : ℤ) :
    Except Unit (Option ℚ) :=
  let levels := side_levels ob side
  if levels = [] then .ok none
  else
    let r := vwap_loop quantity (sort_best_first side levels) 0 0
    if r.2 < quantity then .ok none
    else if r.2 = 0 then .error ()
    else .ok (some ((r.1 : ℚ) / (r.2 : ℚ)))

/-! ### Object-identity model of `get_snapshot` (claim C4)

`get_snapshot` copies the two level lists with Python `list.copy()` — a
shallow copy: the fresh lists hold references to the same mutable `Quote`
objects the model holds. To express what mutating a level does, `Quote`
objects live in an explicit store and the level sequences of the model and
the snapshot hold addresses into that store. -/

/-- A store of mutable `Quote` objects; an address is an index. -/
def QuoteStore : Type := List Quote

/-- The `OrderBook` object, at the object-identity level: its level
sequences are lists of `Quote` addresses. -/
structure OrderBookObj where
  ticker : String
  yes_bids : List ℕ
  yes_asks : List ℕ
  best_bid : Option ℤ
  best_ask : Option ℤ
  mid_price : Option ℚ
  spread : Option ℤ
  bid_depth : ℤ
  ask_depth : ℤ
  deriving Repr, DecidableEq

/-- `OrderBookSnapshot` dataclass of `orderbook.py`, at the object-identity
level. -/
structure OrderBookSnapshotObj where
  ticker : String
  yes_bids : List ℕ
  yes_asks : List ℕ
  best_bid : Option ℤ
  best_ask : Option ℤ
  mid_price : Option ℚ
  spread : Option ℤ
  bid_depth : ℤ
  ask_depth : ℤ
  deriving Repr, DecidableEq

/-- Python `list.copy()`: a fresh list object whose elements are the same
references. -/
def list_copy (l : List ℕ) : List ℕ := l

/-- `get_snapshot` of `orderbook.py`: a pure read of the model (it takes no
store and writes nothing), with `list.copy()` of the two level sequences. -/
def get_snapshot (ob : OrderBookObj) : OrderBookSnapshotObj :=
  { ticker := ob.ticker
    yes_bids := list_copy ob.yes_bids
    yes_asks := list_copy ob.yes_asks
    best_bid := ob.best_bid
    best_ask := ob.best_ask
    mid_price := ob.mid_price
    spread := ob.spread
    bid_depth := ob.bid_depth
    ask_depth := ob.ask_depth }

/-- In-place mutation `quote.price = p` of the `Quote` object at address
`addr`. -/
def set_quote_price (st : QuoteStore) (addr : ℕ) (p : ℤ) : QuoteStore :=
  List.set st addr ⟨p, (List.getD st addr ⟨0, 0⟩).quantity⟩

/-- The sequence of levels a list of addresses denotes in a store. -/
def deref (st : QuoteStore) (l : List ℕ) : List Quote :=
  l.map (fun a => List.getD st a ⟨0, 0⟩)

end KalshiMM

namespace KalshiMM

/-! ## Theorems for the fee claims -/

/-- C6: for every contract count, fee rate, and price `p ∈ [1,99]`, the fee
computed by `calculate_fee` at `p` equals the fee computed at `100 - p`
(same `fee_dollars` and same `fee_cents`). -/
theorem calculate_fee_symmetric (c p : ℤ) (r : ℚ) (h1 : 1 ≤ p) (h2 : p ≤ 99) :
    (calculate_fee c p r).fee_dollars = (calculate_fee c (100 - p) r).fee_dollars ∧
    (calculate_fee c p r).fee_cents = (calculate_fee c (100 - p) r).fee_cents := by
  constructor <;> · simp only [calculate_fee]; push_cast; ring

/-- Witness for C6 at `c = 100`, `p = 48`, maker rate. -/
theorem calculate_fee_symmetric_witness :
    (calculate_fee 100 48 MAKER_FEE_RATE).fee_dollars
      = (calculate_fee 100 (100 - 48) MAKER_FEE_RATE).fee_dollars ∧
    (calculate_fee 100 48 MAKER_FEE_RATE).fee_cents
      = (calculate_fee 100 (100 - 48) MAKER_FEE_RATE).fee_cents :=
  calculate_fee_symmetric 100 48 MAKER_FEE_RATE (by decide) (by decide)

/-- C7: for every non-negative contract count, non-negative fee rate, and
price `p ∈ [1,99]`, the fee at the mid price 50 dominates the fee at `p`,
both in dollars and in cents. -/
theorem calculate_fee_max_at_mid (c p : ℤ) (r : ℚ) (hc : 0 ≤ c) (hr : 0 ≤ r)
    (h1 : 1 ≤ p) (h2 : p ≤ 99) :
    (calculate_fee c p r).fee_dollars ≤ (calculate_fee c 50 r).fee_dollars ∧
    (calculate_fee c p r).fee_cents ≤ (calculate_fee c 50 r).fee_cents := by
  have hc' : (0 : ℚ) ≤ (c : ℚ) := by exact_mod_cast hc
  have hrc : (0 : ℚ) ≤ r * (c : ℚ) := mul_nonneg hr hc'
  have hx : ((p : ℚ) / 100) * (1 - (p : ℚ) / 100) ≤ ((50 : ℚ) / 100) * (1 - (50 : ℚ) / 100) := by
    nlinarith [sq_nonneg ((p : ℚ) / 100 - 1 / 2)]
  constructor
  · simp only [calculate_fee]
    calc r * (c : ℚ) * ((p : ℚ) / 100) * (1 - (p : ℚ) / 100)
        = (r * (c : ℚ)) * (((p : ℚ) / 100) * (1 - (p : ℚ) / 100)) := by ring
      _ ≤ (r * (c : ℚ)) * (((50 : ℚ) / 100) * (1 - (50 : ℚ) / 100)) :=
          mul_le_mul_of_nonneg_left hx hrc
      _ = r * (c : ℚ) * (((50 : ℤ) : ℚ) / 100) * (1 - ((50 : ℤ) : ℚ) / 100) := by
          push_cast; ring
  · simp only [calculate_fee]
    have : r * (c : ℚ) * ((p : ℚ) / 100) * (1 - (p : ℚ) / 100)
        ≤ r * (c : ℚ) * (((50 : ℤ) : ℚ) / 100) * (1 - ((50 : ℤ) : ℚ) / 100) := by
      calc r * (c : ℚ) * ((p : ℚ) / 100) * (1 - (p : ℚ) / 100)
          = (r * (c : ℚ)) * (((p : ℚ) / 100) * (1 - (p : ℚ) / 100)) := by ring
        _ ≤ (r * (c : ℚ)) * (((50 : ℚ) / 100) * (1 - (50 : ℚ) / 100)) :=
            mul_le_mul_of_nonneg_left hx hrc
        _ = r * (c : ℚ) * (((50 : ℤ) : ℚ) / 100) * (1 - ((50 : ℤ) : ℚ) / 100) := by
            push_cast; ring
    linarith

/-- Witness for C7 at `c = 100`, `p = 48`, maker rate. -/
theorem calculate_fee_max_at_mid_witness :
    (calculate_fee 100 48 MAKER_FEE_RATE).fee_dollars
      ≤ (calculate_fee 100 50 MAKER_FEE_RATE).fee_dollars ∧
    (calculate_fee 100 48 MAKER_FEE_RATE).fee_cents
      ≤ (calculate_fee 100 50 MAKER_FEE_RATE).fee_cents :=
  calculate_fee_max_at_mid 100 48 MAKER_FEE_RATE (by decide)
    (by norm_num [MAKER_FEE_RATE]) (by decide) (by decide)

/-- C9: `analyze_profitability` guards every division: `profit_per_contract_cents`
satisfies `ppc × contracts = net_profit_cents` when `contracts > 0` (the divisor
being nonzero) and is `0` otherwise; `roi_percent` satisfies
`roi × capital_at_risk = net_profit_dollars × 100` when the capital at risk
`entry_price_cents × contracts / 100` is positive (hence nonzero) and is `0`
otherwise; the function is total. -/
theorem analyze_profitability_division_safe (c e x : ℤ) (m : Bool) :
    ((0 < c →
        ((c : ℚ) ≠ 0 ∧
          (analyze_profitability c e x m).profit_per_contract_cents * (c : ℚ)
            = (analyze_profitability c e x m).net_profit_cents)) ∧
      (c ≤ 0 → (analyze_profitability c e x m).profit_per_contract_cents = 0)) ∧
    ((0 < ((e : ℚ) * (c : ℚ)) / 100 →
        (((e : ℚ) * (c : ℚ)) / 100 ≠ 0 ∧
          (analyze_profitability c e x m).roi_percent * (((e : ℚ) * (c : ℚ)) / 100)
            = (analyze_profitability c e x m).net_profit_dollars * 100)) ∧
      (((e : ℚ) * (c : ℚ)) / 100 ≤ 0 →
        (analyze_profitability c e x m).roi_percent = 0)) := by
  refine ⟨⟨fun hc => ?_, fun hc => ?_⟩, ⟨fun hcap => ?_, fun hcap => ?_⟩⟩
  · have hne : (c : ℚ) ≠ 0 := by
      exact_mod_cast (ne_of_gt (show (0 : ℤ) < c from hc))
    refine ⟨hne, ?_⟩
    simp only [analyze_profitability, if_pos hc]
    field_simp
  · simp only [analyze_profitability, if_neg (not_lt.mpr hc)]
  · have hne : ((e : ℚ) * (c : ℚ)) / 100 ≠ 0 := ne_of_gt hcap
    refine ⟨hne, ?_⟩
    have h2 : (e : ℚ) * (c : ℚ) ≠ 0 := by
      intro h0
      exact hne (by rw [h0]; norm_num)
    simp only [analyze_profitability, if_pos hcap]
    field_simp
  · simp only [analyze_profitability, if_neg (not_lt.mpr hcap)]

/-- C10: the two independently coded fee-summing paths agree: for every
contract count, entry price, exit price and maker flag,
`calculate_round_trip_fee` equals the `total_fees_cents` field of
`analyze_profitability`. -/
theorem calculate_round_trip_fee_eq_total_fees (c e x : ℤ) (m : Bool) :
    calculate_round_trip_fee c e x m = (analyze_profitability c e x m).total_fees_cents := rfl

/-! ### Characterization of the linear searches (claim C1) -/

/-- `find?` on `range' a n`, when it succeeds, yields the first number of
`[a, a+n)` satisfying the predicate. -/
theorem find?_range'_eq_some {p : ℕ → Bool} {n a s : ℕ}
    (h : (List.range' a n).find? p = some s) :
    p s = true ∧ a ≤ s ∧ s < a + n ∧ ∀ x, a ≤ x → x < s → p x = false := by
  induction n generalizing a with
  | zero => simp [List.range'] at h
  | succ n ih =>
    rw [List.range'_succ] at h
    cases hpa : p a with
    | true =>
      rw [List.find?_cons_of_pos _ hpa] at h
      obtain rfl : a = s := by simpa using h
      exact ⟨hpa, le_refl a, by omega, fun x hx1 hx2 => absurd (lt_of_le_of_lt hx1 hx2) (lt_irrefl a)⟩
    | false =>
      rw [List.find?_cons_of_neg _ (by simp [hpa])] at h
      obtain ⟨h1, h2, h3, h4⟩ := ih h
      refine ⟨h1, by omega, by omega, fun x hx1 hx2 => ?_⟩
      rcases eq_or_lt_of_le hx1 with rfl | hlt
      · exact hpa
      · exact h4 x (by omega) hx2

/-- `find?` on `range' a n`, when it fails, fails on every number of
`[a, a+n)`. -/
theorem find?_range'_eq_none {p : ℕ → Bool} {n a : ℕ}
    (h : (List.range' a n).find? p = none) :
    ∀ x, a ≤ x → x < a + n → p x = false := by
  induction n generalizing a with
  | zero => intro x hx1 hx2; omega
  | succ n ih =>
    rw [List.range'_succ] at h
    cases hpa : p a with
    | true => rw [List.find?_cons_of_pos _ hpa] at h; exact absurd h (by simp)
    | false =>
      rw [List.find?_cons_of_neg _ (by simp [hpa])] at h
      intro x hx1 hx2
      rcases eq_or_lt_of_le hx1 with rfl | hlt
      · exact hpa
      · exact ih h x (by omega) (by omega)

/-- The search scheme shared by `min_spread_for_breakeven` and
`min_spread_for_profit`: either the result is the first hit in `1..49`, or
there is no hit in `1..49` and the result is the fallback 50. -/
theorem range_search_characterization (p : ℕ → Bool) :
    (1 ≤ ((List.range' 1 49).find? p).getD 50 ∧
      ((List.range' 1 49).find? p).getD 50 ≤ 49 ∧
      p (((List.range' 1 49).find? p).getD 50) = true ∧
      ∀ s, 1 ≤ s → s < ((List.range' 1 49).find? p).getD 50 → p s = false) ∨
    (((List.range' 1 49).find? p).getD 50 = 50 ∧
      ∀ s, 1 ≤ s → s ≤ 49 → p s = false) := by
  cases hf : (List.range' 1 49).find? p with
  | none =>
    right
    refine ⟨by simp [hf], fun s hs1 hs2 => ?_⟩
    exact find?_range'_eq_none hf s hs1 (by omega)
  | some r =>
    left
    obtain ⟨h1, h2, h3, h4⟩ := find?_range'_eq_some hf
    simp only [hf, Option.getD_some]
    exact ⟨h2, by omega, h1, h4⟩

/-- C1: `min_spread_for_breakeven` examines spreads `s = 1..49` in increasing
order, deriving `bid = mid - s/2`, `ask = mid + s/2` by floor division,
skipping candidates with `bid < 1` or `ask > 99`; it returns the first
non-skipped spread whose `analyze_profitability` result `is_profitable`, and
50 if none qualifies; so a returned spread `< 50` is valid and profitable and
no smaller non-skipped spread is profitable. `min_spread_for_profit` behaves
identically with stopping condition `net_profit_cents ≥ target`. -/
theorem min_spread_searches_return_first_hit (c mid : ℤ) (m : Bool) (t : ℚ) :
    ((1 ≤ min_spread_for_breakeven c mid m ∧
        min_spread_for_breakeven c mid m ≤ 49 ∧
        search_valid mid (min_spread_for_breakeven c mid m) = true ∧
        (analyze_profitability c (search_bid mid (min_spread_for_breakeven c mid m))
          (search_ask mid (min_spread_for_breakeven c mid m)) m).is_profitable = true ∧
        ∀ s, 1 ≤ s → s < min_spread_for_breakeven c mid m → search_valid mid s = true →
          (analyze_profitability c (search_bid mid s) (search_ask mid s) m).is_profitable
            = false) ∨
      (min_spread_for_breakeven c mid m = 50 ∧
        ∀ s, 1 ≤ s → s ≤ 49 → search_valid mid s = true →
          (analyze_profitability c (search_bid mid s) (search_ask mid s) m).is_profitable
            = false)) ∧
    ((1 ≤ min_spread_for_profit c mid t m ∧
        min_spread_for_profit c mid t m ≤ 49 ∧
        search_valid mid (min_spread_for_profit c mid t m) = true ∧
        t ≤ (analyze_profitability c (search_bid mid (min_spread_for_profit c mid t m))
          (search_ask mid (min_spread_for_profit c mid t m)) m).net_profit_cents ∧
        ∀ s, 1 ≤ s → s < min_spread_for_profit c mid t m → search_valid mid s = true →
          ¬(t ≤ (analyze_profitability c (search_bid mid s) (search_ask mid s) m).net_profit_cents)) ∨
      (min_spread_for_profit c mid t m = 50 ∧
        ∀ s, 1 ≤ s → s ≤ 49 → search_valid mid s = true →
          ¬(t ≤ (analyze_profitability c (search_bid mid s) (search_ask mid s) m).net_profit_cents))) := by
  constructor
  · rcases range_search_characterization (breakeven_hit c mid m) with
      ⟨h1, h2, h3, h4⟩ | ⟨h1, h2⟩
    · left
      rw [show min_spread_for_breakeven c mid m
            = ((List.range' 1 49).find? (breakeven_hit c mid m)).getD 50 from rfl]
      have hv : search_valid mid (((List.range' 1 49).find? (breakeven_hit c mid m)).getD 50)
          = true := (Bool.and_eq_true_iff.mp h3).1
      refine ⟨h1, h2, hv, (Bool.and_eq_true_iff.mp h3).2, fun s hs1 hs2 hs3 => ?_⟩
      have := h4 s hs1 hs2
      simp only [breakeven_hit, hs3, Bool.true_and] at this
      exact this
    · right
      rw [show min_spread_for_breakeven c mid m
            = ((List.range' 1 49).find? (breakeven_hit c mid m)).getD 50 from rfl]
      refine ⟨h1, fun s hs1 hs2 hs3 => ?_⟩
      have := h2 s hs1 hs2
      simp only [breakeven_hit, hs3, Bool.true_and] at this
      exact this
  · rcases range_search_characterization (profit_hit c mid t m) with
      ⟨h1, h2, h3, h4⟩ | ⟨h1, h2⟩
    · left
      rw [show min_spread_for_profit c mid t m
            = ((List.range' 1 49).find? (profit_hit c mid t m)).getD 50 from rfl]
      have hv : search_valid mid (((List.range' 1 49).find? (profit_hit c mid t m)).getD 50)
          = true := (Bool.and_eq_true_iff.mp h3).1
      refine ⟨h1, h2, hv, of_decide_eq_true (Bool.and_eq_true_iff.mp h3).2,
        fun s hs1 hs2 hs3 => ?_⟩
      have := h4 s hs1 hs2
      simp only [profit_hit, hs3, Bool.true_and, decide_eq_false_iff_not] at this
      exact this
    · right
      rw [show min_spread_for_profit c mid t m
            = ((List.range' 1 49).find? (profit_hit c mid t m)).getD 50 from rfl]
      refine ⟨h1, fun s hs1 hs2 hs3 => ?_⟩
      have := h2 s hs1 hs2
      simp only [profit_hit, hs3, Bool.true_and, decide_eq_false_iff_not] at this
      exact this

/-- C5 (amended): both quoting helpers derive `bid`/`ask` from mid and spread
by floor division; the code clamps `bid` only from below (at 1) and `ask` only
from above (at 99), so whenever the mid price itself lies in `[1,99]` and the
spread is non-negative, the recommended bid and ask lie in `[1,99]`. -/
theorem should_quote_market_clamped_range (s c mid : ℤ) (minp : ℚ) (m : Bool)
    (h1 : 1 ≤ mid) (h2 : mid ≤ 99) (hs : 0 ≤ s) :
    1 ≤ (should_quote_market s c mid minp m).recommended_bid ∧
    (should_quote_market s c mid minp m).recommended_bid ≤ 99 ∧
    1 ≤ (should_quote_market s c mid minp m).recommended_ask ∧
    (should_quote_market s c mid minp m).recommended_ask ≤ 99 ∧
    (should_quote_market s c mid minp m).recommended_bid = max 1 (mid - Int.fdiv s 2) ∧
    (should_quote_market s c mid minp m).recommended_ask = min 99 (mid + Int.fdiv s 2) ∧
    expected_profit_per_round_trip s c mid m
      = (analyze_profitability c (max 1 (mid - Int.fdiv s 2))
          (min 99 (mid + Int.fdiv s 2)) m).net_profit_cents := by
  have hk : 0 ≤ Int.fdiv s 2 := Int.fdiv_nonneg hs (by omega)
  have hbid : (should_quote_market s c mid minp m).recommended_bid
      = max 1 (mid - Int.fdiv s 2) := rfl
  have hask : (should_quote_market s c mid minp m).recommended_ask
      = min 99 (mid + Int.fdiv s 2) := rfl
  refine ⟨?_, ?_, ?_, ?_, hbid, hask, rfl⟩
  · rw [hbid]; exact le_max_left 1 _
  · rw [hbid]; exact max_le (by omega) (by omega)
  · rw [hask]; exact le_min (by omega) (by omega)
  · rw [hask]; exact min_le_left 99 _

/-- Witness for the amended C5 at spread 5, 100 contracts, mid 48, target 10,
as maker. -/
theorem should_quote_market_clamped_range_witness :
    1 ≤ (should_quote_market 5 100 48 10 true).recommended_bid ∧
    (should_quote_market 5 100 48 10 true).recommended_bid ≤ 99 ∧
    1 ≤ (should_quote_market 5 100 48 10 true).recommended_ask ∧
    (should_quote_market 5 100 48 10 true).recommended_ask ≤ 99 ∧
    (should_quote_market 5 100 48 10 true).recommended_bid = max 1 (48 - Int.fdiv 5 2) ∧
    (should_quote_market 5 100 48 10 true).recommended_ask = min 99 (48 + Int.fdiv 5 2) ∧
    expected_profit_per_round_trip 5 100 48 true
      = (analyze_profitability 100 (max 1 (48 - Int.fdiv 5 2))
          (min 99 (48 + Int.fdiv 5 2)) true).net_profit_cents :=
  should_quote_market_clamped_range 5 100 48 10 true (by decide) (by decide) (by decide)

/-- Counterexample to C5 as stated: at mid price 200 (no input validation
anywhere upstream) and spread 0, `should_quote_market` recommends a bid of
200, outside `[1,99]` — the code clamps the bid only from below. -/
theorem should_quote_market_bid_not_clamped_above :
    (should_quote_market 0 100 200 10 true).recommended_bid = 200 ∧
    ¬((should_quote_market 0 100 200 10 true).recommended_bid ≤ 99) := by
  constructor
  · rfl
  · intro h
    rw [show (should_quote_market 0 100 200 10 true).recommended_bid = 200 from rfl] at h
    omega

/-! ## Order-book lemmas -/

theorem priceLE_trans : ∀ (a b c : Quote), priceLE a b → priceLE b c → priceLE a c := by
  intro a b c h1 h2
  simp only [priceLE, decide_eq_true_eq] at h1 h2 ⊢
  omega

theorem priceLE_total : ∀ (a b : Quote), priceLE a b || priceLE b a := by
  intro a b
  simp only [priceLE, Bool.or_eq_true, decide_eq_true_eq]
  omega

theorem priceGE_trans : ∀ (a b c : Quote), priceGE a b → priceGE b c → priceGE a c := by
  intro a b c h1 h2
  simp only [priceGE, decide_eq_true_eq] at h1 h2 ⊢
  omega

theorem priceGE_total : ∀ (a b : Quote), priceGE a b || priceGE b a := by
  intro a b
  simp only [priceGE, Bool.or_eq_true, decide_eq_true_eq]
  omega

/-- Stability of the ascending price sort, phrased through filters: the
levels at any one price come out of the sort exactly as they went in. -/
theorem mergeSort_priceLE_filter_price (l : List Quote) (p : ℤ) :
    (l.mergeSort priceLE).filter (fun q => decide (q.price = p))
      = l.filter (fun q => decide (q.price = p)) := by
  have hpw : (l.filter (fun q => decide (q.price = p))).Pairwise
      (fun a b => priceLE a b = true) := by
    apply List.pairwise_of_forall_mem_list
    intro a ha b hb
    have ha' : a.price = p := by simpa using (List.mem_filter.mp ha).2
    have hb' : b.price = p := by simpa using (List.mem_filter.mp hb).2
    simp [priceLE, ha', hb']
  have h1 : List.Sublist (l.filter (fun q => decide (q.price = p))) (l.mergeSort priceLE) :=
    List.sublist_mergeSort priceLE_trans priceLE_total hpw (List.filter_sublist l)
  have h2 : List.Perm ((l.mergeSort priceLE).filter (fun q => decide (q.price = p)))
      (l.filter (fun q => decide (q.price = p))) :=
    (List.mergeSort_perm l priceLE).filter _
  have h3 := h1.filter (fun q => decide (q.price = p))
  have hid : (l.filter (fun q => decide (q.price = p))).filter (fun q => decide (q.price = p))
      = l.filter (fun q => decide (q.price = p)) := by
    apply List.filter_eq_self.mpr
    intro a ha
    exact (List.mem_filter.mp ha).2
  rw [hid] at h3
  exact (h3.eq_of_length h2.length_eq.symm).symm

theorem max_price_eq_none_iff (l : List Quote) : max_price l = none ↔ l = [] := by
  cases l <;> simp [max_price]

theorem min_price_eq_none_iff (l : List Quote) : min_price l = none ↔ l = [] := by
  cases l <;> simp [min_price]

theorem max_price_spec {l : List Quote} {b : ℤ} (h : max_price l = some b) :
    (∃ q ∈ l, q.price = b) ∧ ∀ q ∈ l, q.price ≤ b := by
  induction l generalizing b with
  | nil => simp [max_price] at h
  | cons q rest ih =>
    simp only [max_price] at h
    cases hrest : max_price rest with
    | none =>
      rw [hrest] at h
      obtain rfl : q.price = b := by simpa using h
      have hr : rest = [] := (max_price_eq_none_iff rest).mp hrest
      subst hr
      exact ⟨⟨q, by simp⟩, by simp⟩
    | some m =>
      rw [hrest] at h
      obtain rfl : max q.price m = b := by simpa using h
      obtain ⟨⟨qm, hqm, hqm2⟩, hbound⟩ := ih hrest
      constructor
      · by_cases hc : q.price ≤ m
        · refine ⟨qm, List.mem_cons_of_mem _ hqm, ?_⟩
          rw [max_eq_right hc]
          exact hqm2
        · exact ⟨q, List.mem_cons_self _ _, (max_eq_left (le_of_not_le hc)).symm⟩
      · intro q' hq'
        rcases List.mem_cons.mp hq' with rfl | hmem
        · exact le_max_left _ _
        · exact le_trans (hbound q' hmem) (le_max_right _ _)

theorem min_price_spec {l : List Quote} {a : ℤ} (h : min_price l = some a) :
    (∃ q ∈ l, q.price = a) ∧ ∀ q ∈ l, a ≤ q.price := by
  induction l generalizing a with
  | nil => simp [min_price] at h
  | cons q rest ih =>
    simp only [min_price] at h
    cases hrest : min_price rest with
    | none =>
      rw [hrest] at h
      obtain rfl : q.price = a := by simpa using h
      have hr : rest = [] := (min_price_eq_none_iff rest).mp hrest
      subst hr
      exact ⟨⟨q, by simp⟩, by simp⟩
    | some m =>
      rw [hrest] at h
      obtain rfl : min q.price m = a := by simpa using h
      obtain ⟨⟨qm, hqm, hqm2⟩, hbound⟩ := ih hrest
      constructor
      · by_cases hc : q.price ≤ m
        · exact ⟨q, List.mem_cons_self _ _, (min_eq_left hc).symm⟩
        · refine ⟨qm, List.mem_cons_of_mem _ hqm, ?_⟩
          rw [min_eq_right (le_of_not_le hc)]
          exact hqm2
      · intro q' hq'
        rcases List.mem_cons.mp hq' with rfl | hmem
        · exact min_le_left _ _
        · exact le_trans (min_le_right _ _) (hbound q' hmem)

/-- C3: every NO-bid level at price `X` becomes exactly one derived YES-ask
level at price `100 - X` with the same quantity (the derived sequence is a
permutation of the complementary image), the derived sequence is sorted
ascending by price, ties keep the NO-bid order (stable sort, phrased via
filters at each price), and on the raw book
`no = [[40,100],[60,200],[70,300]]` the derived asks are
`[(30,300),(40,200),(60,100)]` with `best_ask = 30`. -/
theorem yes_asks_complement_sorted_stable (tk : String) (raw : RawOrderBook) :
    ((OrderBook.ofRaw tk raw).yes_asks).Perm
        ((parse_bids raw.no).map (fun bid => ⟨100 - bid.price, bid.quantity⟩)) ∧
    ((OrderBook.ofRaw tk raw).yes_asks).Pairwise (fun q1 q2 => q1.price ≤ q2.price) ∧
    (∀ p : ℤ, ((OrderBook.ofRaw tk raw).yes_asks).filter (fun q => decide (q.price = p))
        = ((parse_bids raw.no).map (fun bid => ⟨100 - bid.price, bid.quantity⟩)).filter
            (fun q => decide (q.price = p))) ∧
    (OrderBook.ofRaw "T" ⟨[], [[40, 100], [60, 200], [70, 300]]⟩).yes_asks
        = [⟨30, 300⟩, ⟨40, 200⟩, ⟨60, 100⟩] ∧
    (OrderBook.ofRaw "T" ⟨[], [[40, 100], [60, 200], [70, 300]]⟩).best_ask = some 30 := by
  have hconc : (OrderBook.ofRaw "T" ⟨[], [[40, 100], [60, 200], [70, 300]]⟩).yes_asks
      = [⟨30, 300⟩, ⟨40, 200⟩, ⟨60, 100⟩] := by
    simp [OrderBook.ofRaw, convert_no_bids_to_yes_asks, parse_bids, priceLE,
      List.mergeSort, List.splitInTwo, List.splitAt, List.splitAt.go, List.merge]
  refine ⟨List.mergeSort_perm _ priceLE, ?_, fun p => mergeSort_priceLE_filter_price _ p,
    hconc, ?_⟩
  · exact List.Pairwise.imp (fun h => by simpa [priceLE] using h)
      (List.sorted_mergeSort priceLE_trans priceLE_total _)
  · rw [show (OrderBook.ofRaw "T" ⟨[], [[40, 100], [60, 200], [70, 300]]⟩).best_ask
        = min_price (OrderBook.ofRaw "T" ⟨[], [[40, 100], [60, 200], [70, 300]]⟩).yes_asks
        from rfl, hconc]
    simp [min_price]

/-- C8: in every constructed order book, `best_bid` is absent exactly when
the YES-bid side is empty and otherwise is the maximum YES-bid price;
`best_ask` is absent exactly when the derived ask side is empty and otherwise
is the minimum derived ask price; `mid_price` and `spread` are present exactly
when both are, with `mid = (bid + ask)/2` and `spread = ask - bid`; absence is
the distinguished `Option.none`, never a sentinel number. -/
theorem order_book_metric_options (tk : String) (raw : RawOrderBook) :
    ((OrderBook.ofRaw tk raw).best_bid = none ↔ (OrderBook.ofRaw tk raw).yes_bids = []) ∧
    (∀ b : ℤ, (OrderBook.ofRaw tk raw).best_bid = some b →
      ((∃ q ∈ (OrderBook.ofRaw tk raw).yes_bids, q.price = b) ∧
        ∀ q ∈ (OrderBook.ofRaw tk raw).yes_bids, q.price ≤ b)) ∧
    ((OrderBook.ofRaw tk raw).best_ask = none ↔ (OrderBook.ofRaw tk raw).yes_asks = []) ∧
    (∀ a : ℤ, (OrderBook.ofRaw tk raw).best_ask = some a →
      ((∃ q ∈ (OrderBook.ofRaw tk raw).yes_asks, q.price = a) ∧
        ∀ q ∈ (OrderBook.ofRaw tk raw).yes_asks, a ≤ q.price)) ∧
    ((OrderBook.ofRaw tk raw).mid_price = none ↔
      ((OrderBook.ofRaw tk raw).best_bid = none ∨ (OrderBook.ofRaw tk raw).best_ask = none)) ∧
    ((OrderBook.ofRaw tk raw).spread = none ↔
      ((OrderBook.ofRaw tk raw).best_bid = none ∨ (OrderBook.ofRaw tk raw).best_ask = none)) ∧
    (∀ b a : ℤ, (OrderBook.ofRaw tk raw).best_bid = some b →
      (OrderBook.ofRaw tk raw).best_ask = some a →
      ((OrderBook.ofRaw tk raw).mid_price = some (((b : ℚ) + (a : ℚ)) / 2) ∧
        (OrderBook.ofRaw tk raw).spread = some (a - b))) := by
  refine ⟨max_price_eq_none_iff _, fun b h => max_price_spec h,
    min_price_eq_none_iff _, fun a h => min_price_spec h, ?_, ?_, ?_⟩
  · rcases hb : max_price (parse_bids raw.yes) with _ | b <;>
      rcases ha : min_price (convert_no_bids_to_yes_asks (parse_bids raw.no)) with _ | a <;>
      simp [OrderBook.ofRaw, hb, ha]
  · rcases hb : max_price (parse_bids raw.yes) with _ | b <;>
      rcases ha : min_price (convert_no_bids_to_yes_asks (parse_bids raw.no)) with _ | a <;>
      simp [OrderBook.ofRaw, hb, ha]
  · intro b a hb ha
    have hb' : max_price (parse_bids raw.yes) = some b := hb
    have ha' : min_price (convert_no_bids_to_yes_asks (parse_bids raw.no)) = some a := ha
    constructor <;> simp [OrderBook.ofRaw, hb', ha']

/-! ## VWAP lemmas (claim C2) -/

theorem total_quantity_nonneg {l : List Quote} (h : ∀ q ∈ l, 0 ≤ q.quantity) :
    0 ≤ total_quantity l := by
  apply List.sum_nonneg
  intro x hx
  obtain ⟨q, hq, rfl⟩ := List.mem_map.mp hx
  exact h q hq

theorem total_quantity_cons (q : Quote) (l : List Quote) :
    total_quantity (q :: l) = q.quantity + total_quantity l := by
  simp [total_quantity]

/-- The greedy loop of `get_vwap` fills `min(available, requested)` contracts
when every level's quantity is non-negative. -/
theorem vwap_loop_filled (qty : ℤ) (l : List Quote) :
    ∀ (tv tq : ℤ), tq ≤ qty → (∀ q ∈ l, 0 ≤ q.quantity) →
      (vwap_loop qty l tv tq).2 = min (tq + total_quantity l) qty := by
  induction l with
  | nil =>
    intro tv tq h1 _
    simp only [vwap_loop, total_quantity, List.map_nil, List.sum_nil]
    omega
  | cons lv rest ih =>
    intro tv tq h1 h2
    have hrest0 : 0 ≤ total_quantity rest :=
      total_quantity_nonneg (fun q hq => h2 q (List.mem_cons_of_mem _ hq))
    have hlv0 : 0 ≤ lv.quantity := h2 lv (List.mem_cons_self _ _)
    rw [total_quantity_cons]
    by_cases hstop : qty ≤ tq
    · simp only [vwap_loop]
      rw [if_pos hstop]
      omega
    · simp only [vwap_loop]
      rw [if_neg hstop]
      rw [ih _ _ (by omega) (fun q hq => h2 q (List.mem_cons_of_mem _ hq))]
      omega

theorem total_quantity_sort_best_first (side : String) (l : List Quote) :
    total_quantity (sort_best_first side l) = total_quantity l := by
  simp only [sort_best_first, total_quantity]
  split
  · exact ((List.mergeSort_perm l priceGE).map Quote.quantity).sum_eq
  · exact ((List.mergeSort_perm l priceLE).map Quote.quantity).sum_eq

theorem mem_sort_best_first {side : String} {l : List Quote} {q : Quote} :
    q ∈ sort_best_first side l ↔ q ∈ l := by
  simp only [sort_best_first]
  split <;> exact List.mem_mergeSort

/-- C2 (amended): for every constructed order book, side, and requested
quantity ≥ 1 (with the side's level quantities non-negative, as the raw feed
contract specifies), `get_vwap` returns `None` exactly when the side's total
depth cannot cover the request, never raises, and when the depth suffices it
returns the greedy volume-weighted average over exactly the requested
quantity — never a partial average. -/
theorem get_vwap_all_or_nothing (ob : OrderBook) (side : String) (qty : ℤ)
    (hq : 1 ≤ qty) (hnn : ∀ q ∈ side_levels ob side, 0 ≤ q.quantity) :
    (get_vwap ob side qty = Except.ok none ↔ total_quantity (side_levels ob side) < qty) ∧
    get_vwap ob side qty ≠ Except.error () ∧
    (qty ≤ total_quantity (side_levels ob side) →
      get_vwap ob side qty = Except.ok (some
        (((vwap_loop qty (sort_best_first side (side_levels ob side)) 0 0).1 : ℚ)
          / (qty : ℚ)))) := by
  by_cases hemp : side_levels ob side = []
  · have hv : get_vwap ob side qty = Except.ok none := by
      simp [get_vwap, hemp]
    have h0 : total_quantity (side_levels ob side) = 0 := by
      rw [hemp]
      simp [total_quantity]
    refine ⟨?_, ?_, ?_⟩
    · rw [hv, h0]
      simp only [true_iff, iff_true_intro rfl]
      omega
    · rw [hv]
      simp
    · intro hge
      rw [h0] at hge
      omega
  · have hsortnn : ∀ q ∈ sort_best_first side (side_levels ob side), 0 ≤ q.quantity :=
      fun q hq' => hnn q (mem_sort_best_first.mp hq')
    have hloop : (vwap_loop qty (sort_best_first side (side_levels ob side)) 0 0).2
        = min (0 + total_quantity (sort_best_first side (side_levels ob side))) qty :=
      vwap_loop_filled qty _ 0 0 (by omega) hsortnn
    rw [total_quantity_sort_best_first] at hloop
    by_cases hcase : total_quantity (side_levels ob side) < qty
    · have hlt : (vwap_loop qty (sort_best_first side (side_levels ob side)) 0 0).2 < qty := by
        rw [hloop]; omega
      have hv : get_vwap ob side qty = Except.ok none := by
        simp only [get_vwap, if_neg hemp]
        rw [if_pos hlt]
      refine ⟨by rw [hv]; simp [hcase], by rw [hv]; simp, fun hge => absurd hge (by omega)⟩
    · have hnlt : ¬((vwap_loop qty (sort_best_first side (side_levels ob side)) 0 0).2 < qty) := by
        rw [hloop]; omega
      have hnz : ¬((vwap_loop qty (sort_best_first side (side_levels ob side)) 0 0).2 = 0) := by
        rw [hloop]; omega
      have heq : (vwap_loop qty (sort_best_first side (side_levels ob side)) 0 0).2 = qty := by
        rw [hloop]; omega
      have hv : get_vwap ob side qty = Except.ok (some
          (((vwap_loop qty (sort_best_first side (side_levels ob side)) 0 0).1 : ℚ)
            / (qty : ℚ))) := by
        simp only [get_vwap, if_neg hemp, if_neg hnlt, if_neg hnz]
        rw [heq]
      refine ⟨?_, by rw [hv]; simp, fun _ => hv⟩
      rw [hv]
      simp only [iff_iff_implies_and_implies]
      constructor
      · intro hcontra
        exact absurd hcontra (by simp)
      · intro hcontra
        exact absurd hcontra hcase

/-- The concrete order book of the C2 witness: YES bids at 48 (100 lots) and
47 (200 lots), no asks. -/
def vwap_book : OrderBook := OrderBook.ofRaw "T" ⟨[[48, 100], [47, 200]], []⟩

/-- Witness for the amended C2 on `vwap_book`, side `"bid"`, quantity 100. -/
theorem get_vwap_all_or_nothing_witness :
    (get_vwap vwap_book "bid" 100 = Except.ok none ↔
      total_quantity (side_levels vwap_book "bid") < 100) ∧
    get_vwap vwap_book "bid" 100 ≠ Except.error () ∧
    (100 ≤ total_quantity (side_levels vwap_book "bid") →
      get_vwap vwap_book "bid" 100 = Except.ok (some
        (((vwap_loop 100 (sort_best_first "bid" (side_levels vwap_book "bid")) 0 0).1 : ℚ)
          / ((100 : ℤ) : ℚ)))) :=
  get_vwap_all_or_nothing vwap_book "bid" 100 (by omega)
    (by
      have hlv : side_levels vwap_book "bid" = [⟨48, 100⟩, ⟨47, 200⟩] := by
        simp [side_levels, vwap_book, OrderBook.ofRaw, parse_bids]
      rw [hlv]
      intro q hq'
      simp only [List.mem_cons, List.not_mem_nil, or_false] at hq'
      rcases hq' with rfl | rfl <;> decide)

/-- Counterexample to C2 as stated (quantifying over every requested
quantity): on a book whose bid side is the single level `(48, 100)`, a
request for 0 contracts makes `get_vwap` reach `total_value / total_quantity`
with `total_quantity = 0` — a `ZeroDivisionError`, neither a VWAP value nor
`None`. -/
theorem get_vwap_zero_quantity_raises :
    get_vwap (OrderBook.ofRaw "T" ⟨[[48, 100]], []⟩) "bid" 0 = Except.error () ∧
    get_vwap (OrderBook.ofRaw "T" ⟨[[48, 100]], []⟩) "bid" 0 ≠ Except.ok none := by
  have hv : get_vwap (OrderBook.ofRaw "T" ⟨[[48, 100]], []⟩) "bid" 0 = Except.error () := by
    simp [get_vwap, side_levels, OrderBook.ofRaw, parse_bids, sort_best_first, vwap_loop]
  exact ⟨hv, by rw [hv]; simp⟩

/-! ## Snapshot theorems (claim C4) -/

/-- Store for the C4 counterexample: one `Quote` object `(48, 100)` at
address 0. -/
def c4_store : QuoteStore := [⟨48, 100⟩]

/-- The order-book object of the C4 counterexample: its bid side holds the
single quote at address 0. -/
def c4_model : OrderBookObj :=
  { ticker := "T"
    yes_bids := [0]
    yes_asks := []
    best_bid := some 48
    best_ask := none
    mid_price := none
    spread := none
    bid_depth := 100
    ask_depth := 0 }

/-- Counterexample to C4 as stated: the snapshot's level list holds the same
`Quote` object (address 0) as the model — `list.copy()` is shallow — so
setting that level's price to 47 through the snapshot changes the model's
observed levels from `[(48,100)]` to `[(47,100)]`. -/
theorem get_snapshot_level_mutation_hits_model :
    (get_snapshot c4_model).yes_bids = [0] ∧
    deref (set_quote_price c4_store (((get_snapshot c4_model).yes_bids).headD 0) 47)
        c4_model.yes_bids = [⟨47, 100⟩] ∧
    deref c4_store c4_model.yes_bids = [⟨48, 100⟩] ∧
    deref (set_quote_price c4_store (((get_snapshot c4_model).yes_bids).headD 0) 47)
        c4_model.yes_bids
      ≠ deref c4_store c4_model.yes_bids :=
  ⟨rfl, rfl, rfl, by decide⟩

/-- C4 (amended): `get_snapshot` is a pure read (it takes the model and
returns a fresh record, changing no field of the model), and its
`list.copy()` of the level sequences is shallow: the copied sequences are
equal as lists of object references, so the snapshot denotes the same levels
in every store, while mutating any `Quote` object not referenced by the model
leaves the model's observed levels unchanged — but, per the counterexample,
mutating a shared level through the snapshot does reach the model. -/
theorem get_snapshot_shallow_copy (ob : OrderBookObj) (st : QuoteStore) :
    (get_snapshot ob).ticker = ob.ticker ∧
    (get_snapshot ob).yes_bids = ob.yes_bids ∧
    (get_snapshot ob).yes_asks = ob.yes_asks ∧
    (get_snapshot ob).best_bid = ob.best_bid ∧
    (get_snapshot ob).best_ask = ob.best_ask ∧
    (get_snapshot ob).mid_price = ob.mid_price ∧
    (get_snapshot ob).spread = ob.spread ∧
    (get_snapshot ob).bid_depth = ob.bid_depth ∧
    (get_snapshot ob).ask_depth = ob.ask_depth ∧
    deref st (get_snapshot ob).yes_bids = deref st ob.yes_bids ∧
    deref st (get_snapshot ob).yes_asks = deref st ob.yes_asks ∧
    (∀ addr p, ¬(addr ∈ ob.yes_bids) →
      deref (set_quote_price st addr p) ob.yes_bids = deref st ob.yes_bids) ∧
    (∀ addr p, ¬(addr ∈ ob.yes_asks) →
      deref (set_quote_price st addr p) ob.yes_asks = deref st ob.yes_asks) := by
  refine ⟨rfl, rfl, rfl, rfl, rfl, rfl, rfl, rfl, rfl, rfl, rfl, ?_, ?_⟩ <;>
  · intro addr p haddr
    apply List.map_congr_left
    intro a ha
    have hne : addr ≠ a := fun h => haddr (h ▸ ha)
    simp [set_quote_price, List.getD_eq_getElem?_getD, List.getElem?_set_ne hne]

end KalshiMM
